import Mathlib

/-!
A shallow embedding of the crawl-and-extract core of `src/doc_rag/scraper.py`
(class `DocumentationScraper`), together with theorems settling the spec
claims about it.

Modelling conventions:
* Python strings are Lean `String`s; the Python string operations used by the
  source (`split`, `rstrip`, `startswith`, `endswith`, `lower`, `in`,
  `strip`) are transcribed below as `py...` functions working on `.data`
  character lists.
* `urllib.parse.urlparse` is transcribed from CPython 3.11
  (`urllib/parse.py`: `urlsplit`, `_splitnetloc`, `_splitparams`), including
  removal of the WHATWG-unsafe bytes tab/CR/LF, scheme detection, netloc
  splitting, fragment/query splitting and params splitting for schemes in
  `uses_params`.  The `_checknetloc` NFKC validation (which can raise for
  exotic non-ASCII netlocs) and the IPv6 bracket `ValueError` are not
  modelled; the URLs handled here do not reach those paths.
* Third-party library calls (`requests.get`, `urljoin`, `markdownify`,
  `pypdf.PdfReader`, the HTML parse performed by BeautifulSoup) are oracles
  supplied by an `Env` structure; the scraper's own logic is transcribed
  faithfully from the source.
-/

/-- `s.split(c)[0]` in Python: the prefix of `s` before the first
occurrence of `c` (all of `s` when `c` is absent). -/
def pySplitHead (c : Char) (s : String) : String :=
  ⟨s.data.takeWhile (· ≠ c)⟩

/-- `s.rstrip(c)` in Python for a one-character strip set: remove every
trailing occurrence of `c`. -/
def pyRstripChar (c : Char) (s : String) : String :=
  ⟨(s.data.reverse.dropWhile (· == c)).reverse⟩

/-- `s.strip()` in Python restricted to ASCII whitespace (the source only
ever strips ordinary spaces/newlines of extracted text). -/
def pyStrip (s : String) : String :=
  ⟨((s.data.dropWhile Char.isWhitespace).reverse.dropWhile Char.isWhitespace).reverse⟩

/-- `s.startswith(p)` in Python. -/
def strStarts (s p : String) : Bool :=
  p.data.isPrefixOf s.data

/-- `s.endswith(p)` in Python. -/
def strEnds (s p : String) : Bool :=
  p.data.isSuffixOf s.data

/-- `needle in hay` in Python (substring containment), on character lists. -/
def containsSub (needle : List Char) : List Char → Bool
  | [] => needle.isEmpty
  | c :: t => needle.isPrefixOf (c :: t) || containsSub needle t

/-- `s.lower()` in Python, restricted to ASCII case mapping. -/
def pyLower (s : String) : String :=
  ⟨s.data.map Char.toLower⟩

/-- `s.split("/")[-1]` in Python: the suffix after the last `/`. -/
def lastPathSegment (s : String) : String :=
  ⟨(s.data.reverse.takeWhile (· ≠ '/')).reverse⟩

/-- The result record of `urllib.parse.urlparse`. -/
structure UrlParts where
  scheme : String
  netloc : String
  path : String
  params : String
  query : String
  fragment : String
deriving Repr, DecidableEq

/-- CPython `scheme_chars`: letters, digits and `+`, `-`, `.`. -/
def schemeChar (c : Char) : Bool :=
  c.isAlphanum || c == '+' || c == '-' || c == '.'

/-- Split a character list at the first occurrence of `c`: the part before
it, and (when present) the part after it. -/
def splitFirst (c : Char) (l : List Char) : List Char × Option (List Char) :=
  match l.span (· ≠ c) with
  | (a, []) => (a, none)
  | (a, _ :: r) => (a, some r)

/-- CPython `scheme in uses_params` list. -/
def usesParams : List String :=
  ["", "ftp", "hdl", "prospero", "http", "imap", "https", "shttp",
   "rtsp", "rtspu", "sip", "sips", "mms", "sftp", "tel"]

/-- CPython `_splitparams`: split params off the last path segment. -/
def splitParams (l : List Char) : List Char × List Char :=
  if '/' ∈ l then
    let rev := l.reverse
    let b := (rev.takeWhile (· ≠ '/')).reverse
    let a := (rev.dropWhile (· ≠ '/')).reverse
    match splitFirst ';' b with
    | (pre, some post) => (a ++ pre, post)
    | (_, none) => (l, [])
  else
    match splitFirst ';' l with
    | (pre, some post) => (pre, post)
    | (_, none) => (l, [])

/-- A delimiter ending the netloc part: `/`, `?` or `#`. -/
def netlocDelim (c : Char) : Bool :=
  c == '/' || c == '?' || c == '#'

/-- CPython 3.11 `urllib.parse.urlsplit` (with `allow_fragments=True` and no
default scheme), transcribed on character lists. -/
def pyUrlsplit (url : String) : UrlParts :=
  let u1 := url.data.filter (fun c => !(c == '\t' || c == '\r' || c == '\n'))
  let schemeRest : List Char × List Char :=
    match splitFirst ':' u1 with
    | (pre, some post) =>
      match pre with
      | [] => ([], u1)
      | c :: cs =>
        if c.isAlpha ∧ (c :: cs).all schemeChar then ((c :: cs).map Char.toLower, post)
        else ([], u1)
    | (_, none) => ([], u1)
  let scheme := schemeRest.1
  let rest := schemeRest.2
  let netlocRest : List Char × List Char :=
    match rest with
    | '/' :: '/' :: r => (r.takeWhile (fun c => !netlocDelim c), r.dropWhile (fun c => !netlocDelim c))
    | _ => ([], rest)
  let netloc := netlocRest.1
  let rest2 := netlocRest.2
  let pathFrag : List Char × List Char :=
    match splitFirst '#' rest2 with
    | (a, some f) => (a, f)
    | (a, none) => (a, [])
  let rest3 := pathFrag.1
  let frag := pathFrag.2
  let pathQuery : List Char × List Char :=
    match splitFirst '?' rest3 with
    | (a, some q) => (a, q)
    | (a, none) => (a, [])
  { scheme := ⟨scheme⟩, netloc := ⟨netloc⟩, path := ⟨pathQuery.1⟩,
    params := "", query := ⟨pathQuery.2⟩, fragment := ⟨frag⟩ }

/-- CPython 3.11 `urllib.parse.urlparse`: `urlsplit` followed by params
splitting when the scheme uses params and the path contains `;`. -/
def pyUrlparse (url : String) : UrlParts :=
  let s := pyUrlsplit url
  if s.scheme ∈ usesParams ∧ ';' ∈ s.path.data then
    let pp := splitParams s.path.data
    { s with path := ⟨pp.1⟩, params := ⟨pp.2⟩ }
  else s

/-- The scraper object fields set up by `DocumentationScraper.__init__`
(`base_url`, `base_path`, `max_pages`, `domain`). -/
structure Scraper where
  base_url : String
  base_path : String
  max_pages : Nat
  domain : String
deriving Repr, DecidableEq

/-- `DocumentationScraper.__init__`: normalize the base URL by stripping
trailing slashes, derive the base path and the domain from the raw base
URL. -/
def mkScraper (baseUrl : String) (maxPages : Nat) : Scraper :=
  { base_url := pyRstripChar '/' baseUrl
    base_path := pyRstripChar '/' (pyUrlparse baseUrl).path
    max_pages := maxPages
    domain := (pyUrlparse baseUrl).netloc }

/-- The excluded-extension tuple of `is_valid_url`. -/
def excludedExts : List String :=
  [".zip", ".tar.gz", ".jpg", ".png", ".gif", ".svg", ".ico"]

/-- `DocumentationScraper.is_valid_url`, reading the `visited_urls` and
`queued_urls` sets as explicit arguments. -/
def is_valid_url (sc : Scraper) (visited queued : Finset String) (url : String) : Bool :=
  let parsed := pyUrlparse url
  if parsed.netloc ≠ sc.domain then false
  else if ¬ strStarts (pyRstripChar '/' parsed.path) sc.base_path then false
  else if url ∈ visited ∨ url ∈ queued then false
  else if excludedExts.any (fun e => strEnds url e) then false
  else true

/-- `DocumentationScraper.normalize_url`: drop everything from the first
`#`, then strip trailing slashes unless the parsed path is exactly `/`. -/
def normalize_url (url : String) : String :=
  let u := pySplitHead '#' url
  let parsed := pyUrlparse u
  if parsed.path ≠ "/" then pyRstripChar '/' u else u

/-- The parsed-HTML tree produced by BeautifulSoup for a fetched page:
an element carries its (lower-cased) tag name, its `class` attribute
values, its `href` attribute when present, and its children in document
order; text nodes carry their string. -/
inductive Html where
  | elem (tag : String) (classes : List String) (href : Option String) (children : List Html)
  | text (s : String)
deriving Repr

mutual

/-- BeautifulSoup `find(criterion)`: the first node in document order
(pre-order, node before its children) satisfying `p`, or `None`. -/
def findFirst (p : Html → Bool) : Html → Option Html
  | .elem t c h ch =>
    if p (.elem t c h ch) then some (.elem t c h ch) else findFirstList p ch
  | .text s => if p (.text s) then some (.text s) else none
termination_by structural t => t

/-- `findFirst` over a sibling list, left to right. -/
def findFirstList (p : Html → Bool) : List Html → Option Html
  | [] => none
  | h :: rest =>
    match findFirst p h with
    | some r => some r
    | none => findFirstList p rest
termination_by structural l => l

end

mutual

/-- BeautifulSoup `find_all("a", href=True)` restricted to the `href`
values, in document order. -/
def anchorHrefs : Html → List String
  | .elem t _ h ch =>
    (if t == "a" then h.toList else []) ++ anchorHrefsList ch
  | .text _ => []
termination_by structural t => t

/-- `anchorHrefs` over a sibling list. -/
def anchorHrefsList : List Html → List String
  | [] => []
  | h :: rest => anchorHrefs h ++ anchorHrefsList rest
termination_by structural l => l

end

/-- The element names decomposed by `extract_content`:
`["script", "style", "nav", "header", "footer"]`. -/
def stripTag (t : String) : Bool :=
  t == "script" || t == "style" || t == "nav" || t == "header" || t == "footer"

/-- Whether a node is an element carrying one of the strip tags. -/
def nodeStripped : Html → Bool
  | .elem tag _ _ _ => stripTag tag
  | .text _ => false

mutual

/-- The in-place effect of `main_content.find_all([...]).decompose()`:
every descendant element with a strip tag is removed, together with its
whole subtree.  The root node itself is kept (`find_all` only returns
descendants). -/
def cleanTree : Html → Html
  | .elem t c h ch => .elem t c h (cleanList ch)
  | .text s => .text s
termination_by structural t => t

/-- `cleanTree` over a sibling list: strip-tagged elements are dropped
with their subtrees, other nodes are kept and cleaned recursively. -/
def cleanList : List Html → List Html
  | [] => []
  | h :: rest =>
    if nodeStripped h then cleanList rest
    else cleanTree h :: cleanList rest
termination_by structural l => l

end

mutual

/-- Apply `f` in place to the first subtree (in document order) satisfying
`p`, leaving the rest of the document unchanged: this is how the mutation
of the region found by `soup.find(...)` is reflected in the shared parsed
document. -/
def replaceFirst (p : Html → Bool) (f : Html → Html) : Html → Html
  | .elem t c h ch =>
    if p (.elem t c h ch) then f (.elem t c h ch)
    else .elem t c h (replaceFirstList p f ch)
  | .text s => if p (.text s) then f (.text s) else .text s
termination_by structural t => t

/-- `replaceFirst` over a sibling list: only the first sibling containing a
match is rewritten. -/
def replaceFirstList (p : Html → Bool) (f : Html → Html) : List Html → List Html
  | [] => []
  | h :: rest =>
    if (findFirst p h).isSome then replaceFirst p f h :: rest
    else h :: replaceFirstList p f rest
termination_by structural l => l

end

mutual

/-- The `href` values of anchors that are not inside any strip-tagged
element of the tree (the document-order anchors that survive
`cleanTree`). -/
def anchorsOutside : Html → List String
  | .elem t _ h ch =>
    (if t == "a" then h.toList else []) ++ anchorsOutsideList ch
  | .text _ => []
termination_by structural t => t

/-- `anchorsOutside` over a sibling list: strip-tagged siblings contribute
nothing. -/
def anchorsOutsideList : List Html → List String
  | [] => []
  | h :: rest =>
    (if nodeStripped h then [] else anchorsOutside h) ++ anchorsOutsideList rest
termination_by structural l => l

end

mutual

/-- The text-node strings of a tree in document order
(BeautifulSoup `get_text`). -/
def textPieces : Html → List String
  | .elem _ _ _ ch => textPiecesList ch
  | .text s => [s]
termination_by structural t => t

/-- `textPieces` over a sibling list. -/
def textPiecesList : List Html → List String
  | [] => []
  | h :: rest => textPieces h ++ textPiecesList rest
termination_by structural l => l

end

/-- BeautifulSoup `get_text(strip=True)`: each text piece stripped, joined
without separator. -/
def getTextStrip (h : Html) : String :=
  String.join ((textPieces h).map pyStrip)

/-- Matches `soup.find("main")`. -/
def isMainTag : Html → Bool
  | .elem t _ _ _ => t == "main"
  | .text _ => false

/-- Matches `soup.find("article")`. -/
def isArticleTag : Html → Bool
  | .elem t _ _ _ => t == "article"
  | .text _ => false

/-- Matches `soup.find("div", class_=["content", "documentation", "docs"])`:
a `div` one of whose classes is in the list. -/
def isContentDiv : Html → Bool
  | .elem t cls _ _ =>
    t == "div" && cls.any (fun c => c == "content" || c == "documentation" || c == "docs")
  | .text _ => false

/-- Matches `soup.find("body")`. -/
def isBodyTag : Html → Bool
  | .elem t _ _ _ => t == "body"
  | .text _ => false

/-- Matches `soup.find("h1")`. -/
def isH1Tag : Html → Bool
  | .elem t _ _ _ => t == "h1"
  | .text _ => false

/-- The cascade `soup.find("main") or soup.find("article") or
soup.find("div", class_=[...]) or soup.find("body")`: the criterion of the
first `find` that succeeds, `none` when all four return `None` (in which
case `main_content` is `None` in the source). -/
def selectPred (doc : Html) : Option (Html → Bool) :=
  if (findFirst isMainTag doc).isSome then some isMainTag
  else if (findFirst isArticleTag doc).isSome then some isArticleTag
  else if (findFirst isContentDiv doc).isSome then some isContentDiv
  else if (findFirst isBodyTag doc).isSome then some isBodyTag
  else none

/-- The document record dictionary `{url, title, content}`. -/
structure DocRecord where
  url : String
  title : String
  content : String
deriving Repr, DecidableEq

/-- The outcome of `pypdf.PdfReader` on fetched bytes: per-page extracted
text, and `metaTitle = some t` exactly when `pdf_reader.metadata` is truthy
and its `title` attribute is a truthy string `t`. -/
structure PdfDoc where
  pages : List String
  metaTitle : Option String
deriving Repr, DecidableEq

/-- The two library-level readings of one fetched response body:
`asHtml` is the BeautifulSoup parse (total — the parser accepts any
bytes), `asPdf` is the pypdf parse, `none` when pypdf raises on the
bytes. -/
structure FetchedBody where
  asHtml : Html
  asPdf : Option PdfDoc

/-- Oracles for the third-party calls of the scraper: `fetch url` is
`requests.get(url, timeout=10)` + `raise_for_status` (`none` = any
exception, `some (contentTypeHeader, body)` = a 2xx response with its
`content-type` header, `""` when absent); `resolve` is
`urllib.parse.urljoin`; `mdConv` is `markdownify(str(region),
heading_style="ATX")` as a function of the region tree. -/
structure Env where
  fetch : String → Option (String × FetchedBody)
  resolve : String → String → String
  mdConv : Html → String

/-- `DocumentationScraper.extract_content`.  Returns `none` when no main
content region and no `body` exist, in which case the source raises
`AttributeError` on `None.find_all` (caught by `scrape`'s `except`);
otherwise the record and the mutated shared document. -/
def extract_content (env : Env) (soup : Html) (url : String) : Option (DocRecord × Html) :=
  match selectPred soup with
  | none => none
  | some p =>
    match findFirst p soup with
    | none => none
    | some region =>
      let soup2 := replaceFirst p cleanTree soup
      let title :=
        match findFirst isH1Tag soup2 with
        | some h => getTextStrip h
        | none => url
      some ({ url := url, title := title, content := env.mdConv (cleanTree region) }, soup2)

/-- `DocumentationScraper.extract_pdf_content`: `parsed = none` models the
`except` branch (pypdf raised on the bytes). -/
def extract_pdf_content (parsed : Option PdfDoc) (url : String) : DocRecord :=
  match parsed with
  | none => { url := url, title := lastPathSegment url, content := "" }
  | some d =>
    let texts := d.pages.filter (fun t => pyStrip t ≠ "")
    let content : String := ⟨List.intercalate ['\n', '\n'] (texts.map String.data)⟩
    let title :=
      match d.metaTitle with
      | some t => t
      | none =>
        if content ≠ "" then
          let firstLine := pyStrip (pySplitHead '\n' content)
          if firstLine ≠ "" ∧ firstLine.data.length < 200 then firstLine
          else lastPathSegment url
        else lastPathSegment url
    { url := url, title := title, content := content }

/-- The body of the `for link in soup.find_all("a", href=True)` loop of
`extract_links`, over the remaining `href` values: resolve against the
current page, normalize, and append + mark queued when `is_valid_url`
accepts. -/
def extractLinksAux (sc : Scraper) (env : Env) (current : String) (visited : Finset String) :
    List String → Finset String → List String × Finset String
  | [], queued => ([], queued)
  | href :: hs, queued =>
    let absU := normalize_url (env.resolve current href)
    if is_valid_url sc visited queued absU then
      let r := extractLinksAux sc env current visited hs (insert absU queued)
      (absU :: r.1, r.2)
    else
      extractLinksAux sc env current visited hs queued

/-- `DocumentationScraper.extract_links`, with the `queued_urls` set


threaded explicitly: returns the accepted links in order and the updated
set. -/
def extract_links (sc : Scraper) (env : Env) (soup : Html) (current : String)
    (visited queued : Finset String) : List String × Finset String :=
  extractLinksAux sc env current visited (anchorHrefs soup) queued

/-- The mutable state of one `scrape` invocation: `visited_urls`,
`queued_urls`, `urls_to_visit`, `documents`, plus ghost observables —
`fetchLog` records each URL passed to `requests.get` in order, `sleeps`
counts the `time.sleep(0.51)` calls, `warnings` counts the
`logger.warning` calls issued by `scrape`'s `except` handler. -/
structure ScrapeState where
  visited : Finset String
  queued : Finset String
  pending : List String
  documents : List DocRecord
  fetchLog : List String
  sleeps : Nat
  warnings : Nat

/-- The state after the seeding lines of `scrape` (normalize the base URL,
make it the sole pending and queued URL). -/
def initState (sc : Scraper) : ScrapeState :=
  let nb := normalize_url sc.base_url
  { visited := ∅, queued := {nb}, pending := [nb],
    documents := [], fetchLog := [], sleeps := 0, warnings := 0 }

/-- The PDF classification of `scrape`:
`url.endswith(".pdf") or "application/pdf" in content_type` with the
header lower-cased. -/
def isPdfResource (url ctypeHeader : String) : Bool :=
  strEnds url ".pdf" || containsSub "application/pdf".data (pyLower ctypeHeader).data

/-- One iteration of `scrape`'s `while` loop: `none` when the loop guard
fails (empty frontier or page budget reached), otherwise the state after
the iteration.  The branches mirror the source: the visited-skip
`continue`, the `except` path on a failed fetch (warning, no sleep), the
PDF path, the HTML path with its possible `AttributeError` from
`extract_content`, and the politeness sleep on the successful paths. -/
def stepO (sc : Scraper) (env : Env) (s : ScrapeState) : Option ScrapeState :=
  match s.pending with
  | [] => none
  | url :: rest =>
    if s.visited.card < sc.max_pages then
      if url ∈ s.visited then
        some { s with pending := rest }
      else
        match env.fetch url with
        | none =>
          some { s with pending := rest, fetchLog := s.fetchLog ++ [url],
                        warnings := s.warnings + 1 }
        | some (ctypeHeader, body) =>
          let s1 : ScrapeState :=
            { s with pending := rest, fetchLog := s.fetchLog ++ [url],
                     visited := insert url s.visited }
          if isPdfResource url ctypeHeader then
            let doc := extract_pdf_content body.asPdf url
            let docs := if pyStrip doc.content ≠ "" then s1.documents ++ [doc] else s1.documents
            some { s1 with documents := docs, sleeps := s1.sleeps + 1 }
          else
            match extract_content env body.asHtml url with
            | none => some { s1 with warnings := s1.warnings + 1 }
            | some (doc, soup2) =>
              let docs := if pyStrip doc.content ≠ "" then s1.documents ++ [doc] else s1.documents
              let lq := extract_links sc env soup2 url s1.visited s1.queued
              some { s1 with documents := docs, pending := rest ++ lq.1,
                             queued := lq.2, sleeps := s1.sleeps + 1 }
    else none

/-- Run up to `n` loop iterations from `s` (stopping early when the loop
guard fails): the small-step unrolling of `scrape`'s `while` loop. -/
def runCrawl (sc : Scraper) (env : Env) : Nat → ScrapeState → ScrapeState
  | 0, s => s
  | n + 1, s =>
    match stepO sc env s with
    | none => s
    | some s' => runCrawl sc env n s'

/-- `dropWhile` is idempotent. -/
theorem dropWhile_idem {α : Type} (p : α → Bool) (l : List α) :
    (l.dropWhile p).dropWhile p = l.dropWhile p := by
  induction l with
  | nil => rfl
  | cons a t ih =>
    by_cases h : p a
    · simpa [List.dropWhile_cons, h] using ih
    · simp [List.dropWhile_cons, h]

/-- `pyRstripChar` is idempotent. -/
theorem pyRstripChar_idem (c : Char) (s : String) :
    pyRstripChar c (pyRstripChar c s) = pyRstripChar c s := by
  apply String.ext
  show ((((s.data.reverse.dropWhile (· == c)).reverse).reverse.dropWhile (· == c)).reverse)
      = (s.data.reverse.dropWhile (· == c)).reverse
  rw [List.reverse_reverse, dropWhile_idem]

/-- Characters of `pyRstripChar c s` come from `s`. -/
theorem mem_pyRstripChar (c : Char) (s : String) :
    ∀ x ∈ (pyRstripChar c s).data, x ∈ s.data := by
  intro x hx
  have hx' : x ∈ s.data.reverse.dropWhile (· == c) := by
    simpa [pyRstripChar] using hx
  have := List.dropWhile_subset (l := s.data.reverse) (· == c) hx'
  simpa using this

/-- `pySplitHead c s` contains no `c`. -/
theorem pySplitHead_no_c (c : Char) (s : String) : c ∉ (pySplitHead c s).data := by
  intro h
  have := List.mem_takeWhile_imp (p := fun x => decide (x ≠ c)) h
  simp at this

/-- `pySplitHead c` fixes strings without `c`. -/
theorem pySplitHead_eq_self {c : Char} {s : String} (h : c ∉ s.data) :
    pySplitHead c s = s := by
  apply String.ext
  show s.data.takeWhile (· ≠ c) = s.data
  rw [List.takeWhile_eq_self_iff]
  intro x hx
  simp only [decide_eq_true_eq]
  rintro rfl
  exact h hx

/-- **C8**: URL normalization is idempotent: for every URL string `u`,
`normalize_url (normalize_url u) = normalize_url u`. -/
theorem c8_normalize_idempotent (u : String) :
    normalize_url (normalize_url u) = normalize_url u := by
  have hnx : '#' ∉ (pySplitHead '#' u).data := pySplitHead_no_c '#' u
  by_cases h : (pyUrlparse (pySplitHead '#' u)).path = "/"
  · have h1 : normalize_url u = pySplitHead '#' u := by
      simp [normalize_url, h]
    rw [h1]
    simp [normalize_url, pySplitHead_eq_self hnx, h]
  · have h1 : normalize_url u = pyRstripChar '/' (pySplitHead '#' u) := by
      simp [normalize_url, h]
    rw [h1]
    have hnx2 : '#' ∉ (pyRstripChar '/' (pySplitHead '#' u)).data := fun hc =>
      hnx (mem_pyRstripChar _ _ _ hc)
    by_cases h2 : (pyUrlparse (pyRstripChar '/' (pySplitHead '#' u))).path = "/"
    · simp [normalize_url, pySplitHead_eq_self hnx2, h2]
    · simp [normalize_url, pySplitHead_eq_self hnx2, h2, pyRstripChar_idem]

/-- Modelled from the claim's words (C7): drop everything from the first
`#` onward, then, when the path component is not exactly `/`, strip a
single trailing slash. -/
def claimedNormalizeOne (url : String) : String :=
  let u : String := ⟨url.data.takeWhile (· ≠ '#')⟩
  if (pyUrlparse u).path = "/" then u
  else
    match u.data.reverse with
    | '/' :: r => ⟨r.reverse⟩
    | _ => u

/-- Modelled from the amended claim (C7): drop everything from the first
`#` onward, then, when the path component is not exactly `/`, remove the
whole maximal run of trailing slashes. -/
def claimedNormalizeAll (url : String) : String :=
  let u : String := ⟨url.data.takeWhile (· ≠ '#')⟩
  if (pyUrlparse u).path = "/" then u
  else ⟨(u.data.reverse.dropWhile (· == '/')).reverse⟩

/-- **C7, counterexample**: the claim predicts that a URL ending in several
slashes loses exactly one of them; on `"http://h/p//"` the source strips
the whole run, so the claimed output differs from the computed one. -/
theorem c7_counterexample :
    normalize_url "http://h/p//" = "http://h/p" ∧
    claimedNormalizeOne "http://h/p//" = "http://h/p/" ∧
    ("http://h/p" : String) ≠ "http://h/p/" :=
  ⟨rfl, rfl, by decide⟩

/-- **C7, amended**: for every URL string, the normalizer drops everything
from the first `#` onward, and then, if the URL's path component is not
exactly `/`, strips the entire maximal run of trailing slashes (the root
URL's trailing slash is preserved). -/
theorem c7_normalize_behavior (u : String) :
    normalize_url u = claimedNormalizeAll u := by
  by_cases h : (pyUrlparse (pySplitHead '#' u)).path = "/"
  · simp [normalize_url, claimedNormalizeAll, pySplitHead, pyRstripChar,
      h, show (pyUrlparse ⟨u.data.takeWhile (· ≠ '#')⟩).path = "/" from h]
  · simp [normalize_url, claimedNormalizeAll, pySplitHead, pyRstripChar,
      h, show ¬ (pyUrlparse ⟨u.data.takeWhile (· ≠ '#')⟩).path = "/" from h]

/-- Modelled from the claim's words (C4): the scope filter returns true iff
(a) the URL's host equals the job domain, (b) its path, stripped of
trailing slashes, starts with the base path, (c) it is in neither
`visited` nor `queued`, and (d) its **path** does not end with any
excluded extension. -/
def claimedScopeByPathExt (sc : Scraper) (visited queued : Finset String) (url : String) : Bool :=
  let parsed := pyUrlparse url
  (parsed.netloc == sc.domain) &&
  strStarts (pyRstripChar '/' parsed.path) sc.base_path &&
  (decide (url ∉ visited) && decide (url ∉ queued)) &&
  !(excludedExts.any (fun e => strEnds parsed.path e))

/-- A shared scraper instance for concrete counterexamples/witnesses:
`DocumentationScraper("https://docs.example.com/guide", max_pages=10)`. -/
def scGuide : Scraper := mkScraper "https://docs.example.com/guide" 10

/-- **C4, counterexample**: the claim tests the excluded extensions against
the URL's *path*; the source tests the *whole URL string*
(`url.endswith(...)`).  `"https://docs.example.com/guide?x=.zip"` has path
`/guide` (no excluded extension, so the claim says the filter accepts it),
yet the source rejects it because the URL string ends in `.zip`. -/
theorem c4_counterexample :
    is_valid_url scGuide ∅ ∅ "https://docs.example.com/guide?x=.zip" = false ∧
    claimedScopeByPathExt scGuide ∅ ∅ "https://docs.example.com/guide?x=.zip" = true ∧
    (pyUrlparse "https://docs.example.com/guide?x=.zip").path = "/guide" :=
  ⟨rfl, rfl, rfl⟩

/-- **C4, amended**: for every URL, the scope filter returns true iff all
four conditions hold: (a) the URL's host equals the job domain exactly,
(b) its path after stripping trailing slashes starts with the base path,
(c) it is in neither `visited` nor `queued`, and (d) the **URL string**
does not end with any of `.zip`, `.tar.gz`, `.jpg`, `.png`, `.gif`,
`.svg`, `.ico` (the source checks the whole URL, not just the path);
the conditions are checked in that order, the first failing one
yielding `false`. -/
theorem c4_scope_filter_iff (sc : Scraper) (visited queued : Finset String) (url : String) :
    is_valid_url sc visited queued url = true ↔
      ((pyUrlparse url).netloc = sc.domain ∧
       strStarts (pyRstripChar '/' (pyUrlparse url).path) sc.base_path = true ∧
       (url ∉ visited ∧ url ∉ queued) ∧
       ∀ e ∈ excludedExts, strEnds url e = false) := by
  unfold is_valid_url
  by_cases h1 : (pyUrlparse url).netloc ≠ sc.domain
  · rw [if_pos h1]
    simp only [Bool.false_eq_true, false_iff]
    rintro ⟨ha, -⟩
    exact h1 ha
  · rw [if_neg h1]
    by_cases h2 : ¬ strStarts (pyRstripChar '/' (pyUrlparse url).path) sc.base_path = true
    · rw [if_pos h2]
      simp only [Bool.false_eq_true, false_iff]
      rintro ⟨-, hb, -⟩
      exact h2 hb
    · rw [if_neg h2]
      by_cases h3 : url ∈ visited ∨ url ∈ queued
      · rw [if_pos h3]
        simp only [Bool.false_eq_true, false_iff]
        rintro ⟨-, -, hc, -⟩
        rcases h3 with h3 | h3
        · exact hc.1 h3
        · exact hc.2 h3
      · rw [if_neg h3]
        by_cases h4 : excludedExts.any (fun e => strEnds url e) = true
        · rw [if_pos h4]
          simp only [Bool.false_eq_true, false_iff]
          rintro ⟨-, -, -, hd⟩
          rcases List.any_eq_true.mp h4 with ⟨e, he, hee⟩
          rw [hd e he] at hee
          cases hee
        · rw [if_neg h4]
          simp only [true_iff]
          refine ⟨not_not.mp h1, not_not.mp h2,
            ⟨fun hm => h3 (Or.inl hm), fun hm => h3 (Or.inr hm)⟩, ?_⟩
          intro e he
          by_contra hne
          exact h4 (List.any_eq_true.mpr ⟨e, he, by simpa using hne⟩)

/-- A URL accepted by `is_valid_url` has the job's host, a base-path
prefixed path, no excluded extension, and was in neither membership
set. -/
theorem is_valid_url_props {sc : Scraper} {visited queued : Finset String} {url : String}
    (h : is_valid_url sc visited queued url = true) :
    (pyUrlparse url).netloc = sc.domain ∧
    strStarts (pyRstripChar '/' (pyUrlparse url).path) sc.base_path = true ∧
    (url ∉ visited ∧ url ∉ queued) ∧
    ∀ e ∈ excludedExts, strEnds url e = false := by
  unfold is_valid_url at h
  by_cases h1 : (pyUrlparse url).netloc ≠ sc.domain
  · rw [if_pos h1] at h
    cases h
  · rw [if_neg h1] at h
    by_cases h2 : ¬ strStarts (pyRstripChar '/' (pyUrlparse url).path) sc.base_path = true
    · rw [if_pos h2] at h
      cases h
    · rw [if_neg h2] at h
      by_cases h3 : url ∈ visited ∨ url ∈ queued
      · rw [if_pos h3] at h
        cases h
      · rw [if_neg h3] at h
        by_cases h4 : excludedExts.any (fun e => strEnds url e) = true
        · rw [if_pos h4] at h
          cases h
        · refine ⟨not_not.mp h1, not_not.mp h2,
            ⟨fun hm => h3 (Or.inl hm), fun hm => h3 (Or.inr hm)⟩, ?_⟩
          intro e he
          by_contra hne
          exact h4 (List.any_eq_true.mpr ⟨e, he, by simpa using hne⟩)

/-- Specification of the link-collection loop: the produced link list has
no duplicates, each produced link was not in the `queued` set passed in,
ends up in the returned set, and satisfies the state-independent scope
conditions; the returned set extends the one passed in. -/
theorem extractLinksAux_spec (sc : Scraper) (env : Env) (current : String)
    (visited : Finset String) :
    ∀ (hs : List String) (queued : Finset String),
      (extractLinksAux sc env current visited hs queued).1.Nodup ∧
      (∀ l ∈ (extractLinksAux sc env current visited hs queued).1,
        l ∉ queued ∧ l ∈ (extractLinksAux sc env current visited hs queued).2 ∧
        (pyUrlparse l).netloc = sc.domain ∧
        strStarts (pyRstripChar '/' (pyUrlparse l).path) sc.base_path = true ∧
        (∀ e ∈ excludedExts, strEnds l e = false)) ∧
      (∀ x ∈ queued, x ∈ (extractLinksAux sc env current visited hs queued).2) := by
  intro hs
  induction hs with
  | nil =>
    intro queued
    refine ⟨List.nodup_nil, ?_, ?_⟩
    · intro l hl
      simp [extractLinksAux] at hl
    · intro x hx
      simpa [extractLinksAux] using hx
  | cons href rest ih =>
    intro queued
    by_cases hval : is_valid_url sc visited queued (normalize_url (env.resolve current href)) = true
    · have hrec := ih (insert (normalize_url (env.resolve current href)) queued)
      have hstep : extractLinksAux sc env current visited (href :: rest) queued =
          (normalize_url (env.resolve current href) ::
            (extractLinksAux sc env current visited rest
              (insert (normalize_url (env.resolve current href)) queued)).1,
           (extractLinksAux sc env current visited rest
              (insert (normalize_url (env.resolve current href)) queued)).2) := by
        simp [extractLinksAux, hval]
      have hprops := is_valid_url_props hval
      rw [hstep]
      refine ⟨?_, ?_, ?_⟩
      · refine List.nodup_cons.mpr ⟨?_, hrec.1⟩
        intro hmem
        have := (hrec.2.1 _ hmem).1
        exact this (Finset.mem_insert_self _ _)
      · intro l hl
        rcases List.mem_cons.mp hl with hl | hl
        · subst hl
          refine ⟨hprops.2.2.1.2, ?_, hprops.1, hprops.2.1, hprops.2.2.2⟩
          exact hrec.2.2 _ (Finset.mem_insert_self _ _)
        · have h' := hrec.2.1 _ hl
          refine ⟨fun hq => h'.1 (Finset.mem_insert_of_mem hq), h'.2.1, h'.2.2⟩
      · intro x hx
        exact hrec.2.2 _ (Finset.mem_insert_of_mem hx)
    · have hstep : extractLinksAux sc env current visited (href :: rest) queued =
          extractLinksAux sc env current visited rest queued := by
        simp [extractLinksAux, hval]
      rw [hstep]
      exact ih queued

/-- The crawl-loop invariant maintained by every iteration: the frontier
list has no duplicates and is covered by `queued_urls`, the fetch-attempt
log has no duplicates, is covered by `queued_urls` and is disjoint from
the frontier, `visited_urls ⊆ queued_urls`, the visited count respects
the page budget, and every frontier URL is the normalized seed or
satisfies the state-independent scope conditions. -/
structure CrawlInv (sc : Scraper) (s : ScrapeState) : Prop where
  pendingNodup : s.pending.Nodup
  pendingQueued : ∀ u ∈ s.pending, u ∈ s.queued
  fetchNodup : s.fetchLog.Nodup
  fetchQueued : ∀ u ∈ s.fetchLog, u ∈ s.queued
  fetchPending : ∀ u ∈ s.fetchLog, u ∉ s.pending
  visitedQueued : ∀ u ∈ s.visited, u ∈ s.queued
  cardLe : s.visited.card ≤ sc.max_pages
  pendingScope : ∀ u ∈ s.pending, u = normalize_url sc.base_url ∨
    ((pyUrlparse u).netloc = sc.domain ∧
     strStarts (pyRstripChar '/' (pyUrlparse u).path) sc.base_path = true ∧
     ∀ e ∈ excludedExts, strEnds u e = false)

/-- The invariant holds right after seeding. -/
theorem crawlInv_init (sc : Scraper) : CrawlInv sc (initState sc) := by
  refine ⟨?_, ?_, ?_, ?_, ?_, ?_, ?_, ?_⟩ <;>
    simp [initState]

/-- Step equation, visited-skip branch: the dequeued URL is already in
`visited_urls`, the iteration just drops it (`continue`). -/
theorem stepO_skip {sc : Scraper} {env : Env} {s : ScrapeState} {url : String}
    {rest : List String}
    (hpend : s.pending = url :: rest) (hb : s.visited.card < sc.max_pages)
    (hv : url ∈ s.visited) :
    stepO sc env s = some { s with pending := rest } := by
  unfold stepO
  rw [hpend]
  simp [hb, hv]

/-- Step equation, failed-fetch branch: `requests.get`/`raise_for_status`
raised, the `except` handler logs a warning and continues; no sleep. -/
theorem stepO_fail {sc : Scraper} {env : Env} {s : ScrapeState} {url : String}
    {rest : List String}
    (hpend : s.pending = url :: rest) (hb : s.visited.card < sc.max_pages)
    (hv : url ∉ s.visited) (hf : env.fetch url = none) :
    stepO sc env s = some { s with pending := rest, fetchLog := s.fetchLog ++ [url],
                                   warnings := s.warnings + 1 } := by
  unfold stepO
  rw [hpend]
  simp [hb, hv, hf]

/-- Step equation, PDF branch: successful fetch classified as PDF; the PDF
extractor never raises, the record is kept when its content is non-blank,
and the politeness sleep happens. -/
theorem stepO_pdf {sc : Scraper} {env : Env} {s : ScrapeState} {url : String}
    {rest : List String} {ct : String} {body : FetchedBody}
    (hpend : s.pending = url :: rest) (hb : s.visited.card < sc.max_pages)
    (hv : url ∉ s.visited) (hf : env.fetch url = some (ct, body))
    (hpdf : isPdfResource url ct = true) :
    stepO sc env s = some
      { s with
        pending := rest,
        fetchLog := s.fetchLog ++ [url],
        visited := insert url s.visited,
        documents :=
          if pyStrip (extract_pdf_content body.asPdf url).content ≠ "" then
            s.documents ++ [extract_pdf_content body.asPdf url]
          else s.documents,
        sleeps := s.sleeps + 1 } := by
  unfold stepO
  rw [hpend]
  simp [hb, hv, hf, hpdf]

/-- Step equation, HTML branch with extractor failure: the fetched page
had neither a content region nor a `body`, `extract_content` raised
`AttributeError`, the `except` handler logs a warning; the URL stays
visited and there is no sleep. -/
theorem stepO_html_err {sc : Scraper} {env : Env} {s : ScrapeState} {url : String}
    {rest : List String} {ct : String} {body : FetchedBody}
    (hpend : s.pending = url :: rest) (hb : s.visited.card < sc.max_pages)
    (hv : url ∉ s.visited) (hf : env.fetch url = some (ct, body))
    (hpdf : isPdfResource url ct = false)
    (hec : extract_content env body.asHtml url = none) :
    stepO sc env s = some
      { s with
        pending := rest,
        fetchLog := s.fetchLog ++ [url],
        visited := insert url s.visited,
        warnings := s.warnings + 1 } := by
  unfold stepO
  rw [hpend]
  simp [hb, hv, hf, hpdf, hec]

/-- Step equation, successful HTML branch: record kept when non-blank,
links of the (mutated) document extracted and appended to the frontier,
politeness sleep. -/
theorem stepO_html_ok {sc : Scraper} {env : Env} {s : ScrapeState} {url : String}
    {rest : List String} {ct : String} {body : FetchedBody} {doc : DocRecord}
    {soup2 : Html}
    (hpend : s.pending = url :: rest) (hb : s.visited.card < sc.max_pages)
    (hv : url ∉ s.visited) (hf : env.fetch url = some (ct, body))
    (hpdf : isPdfResource url ct = false)
    (hec : extract_content env body.asHtml url = some (doc, soup2)) :
    stepO sc env s = some
      { s with
        pending := rest ++ (extract_links sc env soup2 url (insert url s.visited) s.queued).1,
        fetchLog := s.fetchLog ++ [url],
        visited := insert url s.visited,
        queued := (extract_links sc env soup2 url (insert url s.visited) s.queued).2,
        documents :=
          if pyStrip doc.content ≠ "" then s.documents ++ [doc] else s.documents,
        sleeps := s.sleeps + 1 } := by
  unfold stepO
  rw [hpend]
  simp [hb, hv, hf, hpdf, hec]

/-- Step equation, empty-frontier termination: `while urls_to_visit`
fails. -/
theorem stepO_empty {sc : Scraper} {env : Env} {s : ScrapeState}
    (hpend : s.pending = []) : stepO sc env s = none := by
  unfold stepO
  rw [hpend]

/-- Step equation, budget termination: `len(self.visited_urls) <
self.max_pages` fails. -/
theorem stepO_budget {sc : Scraper} {env : Env} {s : ScrapeState} {url : String}
    {rest : List String}
    (hpend : s.pending = url :: rest) (hb : ¬ s.visited.card < sc.max_pages) :
    stepO sc env s = none := by
  unfold stepO
  rw [hpend]
  simp [hb]

/-- Every loop iteration preserves the crawl invariant. -/
theorem crawlInv_step {sc : Scraper} {env : Env} {s s' : ScrapeState}
    (inv : CrawlInv sc s) (h : stepO sc env s = some s') : CrawlInv sc s' := by
  rcases hpend : s.pending with _ | ⟨url, rest⟩
  · rw [stepO_empty hpend] at h
    cases h
  · have hnd : (url :: rest).Nodup := hpend ▸ inv.pendingNodup
    have hrestNd : rest.Nodup := hnd.of_cons
    have hurlrest : url ∉ rest := (List.nodup_cons.mp hnd).1
    have hpq : ∀ u ∈ url :: rest, u ∈ s.queued := fun u hu =>
      inv.pendingQueued u (by rw [hpend]; exact hu)
    have hurlq : url ∈ s.queued := hpq url (List.mem_cons_self _ _)
    have hfp : ∀ u ∈ s.fetchLog, u ∉ url :: rest := fun u hu => by
      have := inv.fetchPending u hu
      rw [hpend] at this
      exact this
    have hfNotUrl : url ∉ s.fetchLog := fun hm => hfp url hm (List.mem_cons_self _ _)
    have hlogNd : (s.fetchLog ++ [url]).Nodup := by
      rw [List.nodup_append]
      refine ⟨inv.fetchNodup, List.nodup_singleton _, ?_⟩
      intro a ha hb
      simp only [List.mem_singleton] at hb
      subst hb
      exact hfNotUrl ha
    have hlogQ : ∀ u ∈ s.fetchLog ++ [url], u ∈ s.queued := by
      intro u hu
      rcases List.mem_append.mp hu with hu | hu
      · exact inv.fetchQueued u hu
      · simp only [List.mem_singleton] at hu
        subst hu
        exact hurlq
    have hlogR : ∀ u ∈ s.fetchLog ++ [url], u ∉ rest := by
      intro u hu
      rcases List.mem_append.mp hu with hu | hu
      · exact fun hr => hfp u hu (List.mem_cons_of_mem _ hr)
      · simp only [List.mem_singleton] at hu
        subst hu
        exact hurlrest
    have hscopeR : ∀ u ∈ rest, u = normalize_url sc.base_url ∨
        ((pyUrlparse u).netloc = sc.domain ∧
         strStarts (pyRstripChar '/' (pyUrlparse u).path) sc.base_path = true ∧
         ∀ e ∈ excludedExts, strEnds u e = false) := fun u hu =>
      inv.pendingScope u (by rw [hpend]; exact List.mem_cons_of_mem _ hu)
    by_cases hb : s.visited.card < sc.max_pages
    · by_cases hv : url ∈ s.visited
      · rw [stepO_skip hpend hb hv] at h
        injection h with h
        subst h
        exact ⟨hrestNd, fun u hu => hpq u (List.mem_cons_of_mem _ hu),
          inv.fetchNodup, inv.fetchQueued,
          fun u hu hr => hfp u hu (List.mem_cons_of_mem _ hr),
          inv.visitedQueued, inv.cardLe, hscopeR⟩
      · rcases hf : env.fetch url with _ | ⟨ct, body⟩
        · rw [stepO_fail hpend hb hv hf] at h
          injection h with h
          subst h
          exact ⟨hrestNd, fun u hu => hpq u (List.mem_cons_of_mem _ hu),
            hlogNd, hlogQ, hlogR, inv.visitedQueued, inv.cardLe, hscopeR⟩
        · have hcard : (insert url s.visited).card ≤ sc.max_pages :=
            le_trans (Finset.card_insert_le _ _) hb
          have hvq : ∀ u ∈ insert url s.visited, u ∈ s.queued := by
            intro u hu
            rcases Finset.mem_insert.mp hu with rfl | hu
            · exact hurlq
            · exact inv.visitedQueued u hu
          by_cases hpdf : isPdfResource url ct = true
          · rw [stepO_pdf hpend hb hv hf hpdf] at h
            injection h with h
            subst h
            exact ⟨hrestNd, fun u hu => hpq u (List.mem_cons_of_mem _ hu),
              hlogNd, hlogQ, hlogR, hvq, hcard, hscopeR⟩
          · have hpdf' : isPdfResource url ct = false := by
              simpa using hpdf
            rcases hec : extract_content env body.asHtml url with _ | ⟨doc, soup2⟩
            · rw [stepO_html_err hpend hb hv hf hpdf' hec] at h
              injection h with h
              subst h
              exact ⟨hrestNd, fun u hu => hpq u (List.mem_cons_of_mem _ hu),
                hlogNd, hlogQ, hlogR, hvq, hcard, hscopeR⟩
            · rw [stepO_html_ok hpend hb hv hf hpdf' hec] at h
              injection h with h
              subst h
              have hspec := extractLinksAux_spec sc env url (insert url s.visited)
                (anchorHrefs soup2) s.queued
              have hLnd : (extract_links sc env soup2 url (insert url s.visited) s.queued).1.Nodup :=
                hspec.1
              have hLprops := hspec.2.1
              have hQmono := hspec.2.2
              refine ⟨?_, ?_, hlogNd, ?_, ?_, ?_, hcard, ?_⟩
              · rw [List.nodup_append]
                refine ⟨hrestNd, hLnd, ?_⟩
                intro a ha hl
                exact (hLprops a hl).1 (hpq a (List.mem_cons_of_mem _ ha))
              · intro u hu
                rcases List.mem_append.mp hu with hu | hu
                · exact hQmono _ (hpq u (List.mem_cons_of_mem _ hu))
                · exact (hLprops u hu).2.1
              · intro u hu
                exact hQmono _ (hlogQ u hu)
              · intro u hu hmem
                rcases List.mem_append.mp hmem with hr | hl
                · exact hlogR u hu hr
                · exact (hLprops _ hl).1 (hlogQ u hu)
              · intro u hu
                exact hQmono _ (hvq u hu)
              · intro u hu
                rcases List.mem_append.mp hu with hu | hu
                · exact hscopeR u hu
                · have hp := hLprops u hu
                  exact Or.inr ⟨hp.2.2.1, hp.2.2.2.1, hp.2.2.2.2⟩
    · rw [stepO_budget hpend hb] at h
      cases h

/-- The crawl invariant holds after any number of loop iterations. -/
theorem crawlInv_run {sc : Scraper} {env : Env} :
    ∀ (n : Nat) (s : ScrapeState), CrawlInv sc s → CrawlInv sc (runCrawl sc env n s) := by
  intro n
  induction n with
  | zero =>
    intro s inv
    exact inv
  | succ n ih =>
    intro s inv
    rcases hst : stepO sc env s with _ | s2
    · simpa [runCrawl, hst] using inv
    · have : runCrawl sc env (n + 1) s = runCrawl sc env n s2 := by
        simp [runCrawl, hst]
      rw [this]
      exact ih s2 (crawlInv_step inv hst)

/-- **C1**: in every crawl, no URL is fetched more than once (the log of
`requests.get` calls has no duplicates, thanks to the dequeue-time
membership skip and the enqueue-time `queued_urls` check), and the size of
`visited_urls` never exceeds `max_pages` at any point of the crawl — in
particular at normal termination. -/
theorem c1_no_refetch_and_budget (sc : Scraper) (env : Env) (n : Nat) :
    (runCrawl sc env n (initState sc)).fetchLog.Nodup ∧
    (runCrawl sc env n (initState sc)).visited.card ≤ sc.max_pages :=
  ⟨(crawlInv_run n _ (crawlInv_init sc)).fetchNodup,
   (crawlInv_run n _ (crawlInv_init sc)).cardLe⟩

/-- A scraper seeded with a URL carrying an excluded extension:
`DocumentationScraper("https://docs.example.com/a.zip", max_pages=10)`. -/
def scZip : Scraper := mkScraper "https://docs.example.com/a.zip" 10

/-- **C3, counterexample**: the initial seed is enqueued *without* any
scope check, so a seed whose URL ends in `.zip` enters `pending` (and
`queued`) even though its extension is in the excluded set, contradicting
the claim that *every* URL ever added to pending — including the seed —
has no excluded extension. -/
theorem c3_counterexample :
    (initState scZip).pending = ["https://docs.example.com/a.zip"] ∧
    strEnds "https://docs.example.com/a.zip" ".zip" = true ∧
    ".zip" ∈ excludedExts :=
  ⟨rfl, rfl, by decide⟩

/-- **C3, amended**: at every point of the crawl, every URL in the pending
queue is either the normalized seed (which is enqueued unconditionally) or
satisfies the state-independent scope conditions that `is_valid_url`
checked at its enqueue: host equal to the job domain, slash-stripped path
starting with the base path, and URL not ending in an excluded
extension. -/
theorem c3_pending_scope (sc : Scraper) (env : Env) (n : Nat) :
    ∀ u ∈ (runCrawl sc env n (initState sc)).pending,
      u = normalize_url sc.base_url ∨
      ((pyUrlparse u).netloc = sc.domain ∧
       strStarts (pyRstripChar '/' (pyUrlparse u).path) sc.base_path = true ∧
       ∀ e ∈ excludedExts, strEnds u e = false) :=
  (crawlInv_run n _ (crawlInv_init sc)).pendingScope

/-- The one HTML page used by concrete witnesses: a body with an `h1`, an
in-scope link, an out-of-scope link and some text. -/
def siteDoc : Html :=
  .elem "html" [] none [.elem "body" [] none [
    .elem "h1" [] none [.text " Guide "],
    .elem "a" [] (some "https://docs.example.com/guide/intro") [.text "intro"],
    .elem "a" [] (some "https://other.com/x") [.text "other"],
    .text "hello"]]

/-- A concrete environment whose only reachable page is `siteDoc` at the
`scGuide` seed; every other fetch fails. -/
def envSite : Env :=
  { fetch := fun u =>
      if u = "https://docs.example.com/guide" then
        some ("text/html", { asHtml := siteDoc, asPdf := none })
      else none
    resolve := fun _ href => href
    mdConv := fun _ => "some content" }

/-- **C3, witness** for the amended statement at a concrete input: after
one step of the `envSite` crawl the discovered link is pending, and the
theorem yields its scope facts. -/
theorem c3_pending_scope_witness :
    "https://docs.example.com/guide/intro" ∈
      (runCrawl scGuide envSite 1 (initState scGuide)).pending ∧
    ("https://docs.example.com/guide/intro" = normalize_url scGuide.base_url ∨
      ((pyUrlparse "https://docs.example.com/guide/intro").netloc = scGuide.domain ∧
       strStarts (pyRstripChar '/' (pyUrlparse "https://docs.example.com/guide/intro").path)
         scGuide.base_path = true ∧
       ∀ e ∈ excludedExts, strEnds "https://docs.example.com/guide/intro" e = false)) :=
  ⟨by decide, c3_pending_scope scGuide envSite 1 _ (by decide)⟩

/-- An environment in which every fetch fails (`requests.get` raises for
every URL). -/
def envFail : Env :=
  { fetch := fun _ => none
    resolve := fun _ href => href
    mdConv := fun _ => "" }

/-- The success condition of one loop iteration: a URL is dequeued that is
not yet visited, its fetch succeeds, and it is either classified as PDF
(whose extractor never raises) or the HTML extractor returns without
raising.  Exactly these iterations reach `time.sleep(0.51)`. -/
def iterFetchOk (sc : Scraper) (env : Env) (s : ScrapeState) : Prop :=
  ∃ url rest ct body, s.pending = url :: rest ∧ url ∉ s.visited ∧
    env.fetch url = some (ct, body) ∧
    (isPdfResource url ct = true ∨ (extract_content env body.asHtml url).isSome = true)

/-- **C2, counterexample**: with a failing fetch, the first iteration
processes the seed (it appears in the `requests.get` log) yet performs no
politeness sleep, contradicting the claim that the 0.51 delay follows
every processed URL regardless of success or failure. -/
theorem c2_counterexample :
    (runCrawl scGuide envFail 1 (initState scGuide)).fetchLog =
      ["https://docs.example.com/guide"] ∧
    (runCrawl scGuide envFail 1 (initState scGuide)).sleeps = 0 :=
  ⟨rfl, rfl⟩

/-- **C2, amended**: an iteration of the crawl loop is followed by the
fixed 0.51 politeness delay exactly when its fetch-and-extract succeeds
(`iterFetchOk`); on a fetch failure, an HTML-extractor exception, or the
visited-skip, the loop continues immediately with no delay. -/
theorem c2_sleep_iff_success {sc : Scraper} {env : Env} {s s' : ScrapeState}
    (h : stepO sc env s = some s') :
    (s'.sleeps = s.sleeps + 1 ∨ s'.sleeps = s.sleeps) ∧
    (s'.sleeps = s.sleeps + 1 ↔ iterFetchOk sc env s) := by
  rcases hpend : s.pending with _ | ⟨url, rest⟩
  · rw [stepO_empty hpend] at h
    cases h
  · by_cases hb : s.visited.card < sc.max_pages
    · by_cases hv : url ∈ s.visited
      · rw [stepO_skip hpend hb hv] at h
        injection h with h
        subst h
        refine ⟨Or.inr rfl, ?_, ?_⟩
        · intro hcontr
          have hns : s.sleeps = s.sleeps + 1 := hcontr
          omega
        · rintro ⟨url', rest', ct, body, hpe, hnv, -⟩
          rw [hpend] at hpe
          injection hpe with h1 h2
          subst h1
          exact absurd hv hnv
      · rcases hf : env.fetch url with _ | ⟨ct, body⟩
        · rw [stepO_fail hpend hb hv hf] at h
          injection h with h
          subst h
          refine ⟨Or.inr rfl, ?_, ?_⟩
          · intro hcontr
            have hns : s.sleeps = s.sleeps + 1 := hcontr
            omega
          · rintro ⟨url', rest', ct, body, hpe, -, hfe, -⟩
            rw [hpend] at hpe
            injection hpe with h1 h2
            subst h1
            rw [hf] at hfe
            cases hfe
        · by_cases hpdf : isPdfResource url ct = true
          · rw [stepO_pdf hpend hb hv hf hpdf] at h
            injection h with h
            subst h
            exact ⟨Or.inl rfl,
              fun _ => ⟨url, rest, ct, body, hpend, hv, hf, Or.inl hpdf⟩,
              fun _ => rfl⟩
          · have hpdf' : isPdfResource url ct = false := by
              simpa using hpdf
            rcases hec : extract_content env body.asHtml url with _ | ⟨doc, soup2⟩
            · rw [stepO_html_err hpend hb hv hf hpdf' hec] at h
              injection h with h
              subst h
              refine ⟨Or.inr rfl, ?_, ?_⟩
              · intro hcontr
                have hns : s.sleeps = s.sleeps + 1 := hcontr
                omega
              · rintro ⟨url', rest', ct', body', hpe, -, hfe, hok⟩
                rw [hpend] at hpe
                injection hpe with h1 h2
                subst h1
                rw [hf] at hfe
                injection hfe with hfe
                injection hfe with he1 he2
                subst he1
                subst he2
                rcases hok with hok | hok
                · rw [hpdf'] at hok
                  cases hok
                · rw [hec] at hok
                  cases hok
            · rw [stepO_html_ok hpend hb hv hf hpdf' hec] at h
              injection h with h
              subst h
              exact ⟨Or.inl rfl,
                fun _ => ⟨url, rest, ct, body, hpend, hv, hf, Or.inr (by rw [hec]; rfl)⟩,
                fun _ => rfl⟩
    · rw [stepO_budget hpend hb] at h
      cases h

/-- An environment serving a PDF for every URL. -/
def envPdf : Env :=
  { fetch := fun _ => some ("application/pdf",
      { asHtml := .text "", asPdf := some { pages := ["hello world"], metaTitle := none } })
    resolve := fun _ href => href
    mdConv := fun _ => "" }

/-- **C2, witness** for the amended statement at a concrete input: a
successful PDF iteration sleeps exactly once. -/
theorem c2_sleep_iff_success_witness :
    ((runCrawl scGuide envPdf 1 (initState scGuide)).sleeps = (initState scGuide).sleeps + 1 ∨
     (runCrawl scGuide envPdf 1 (initState scGuide)).sleeps = (initState scGuide).sleeps) ∧
    ((runCrawl scGuide envPdf 1 (initState scGuide)).sleeps = (initState scGuide).sleeps + 1 ↔
      iterFetchOk scGuide envPdf (initState scGuide)) :=
  c2_sleep_iff_success (by rfl)

/-- **C5**: when fetching a URL fails, the crawler logs a warning and the
loop continues (the step is not terminal); the failed URL is not added to
`visited_urls`, and the visited set, the queued set and the accumulated
document list are unchanged by that iteration. -/
theorem c5_fetch_failure_continues (sc : Scraper) (env : Env) (s : ScrapeState)
    (url : String) (rest : List String)
    (hpend : s.pending = url :: rest) (hb : s.visited.card < sc.max_pages)
    (hv : url ∉ s.visited) (hf : env.fetch url = none) :
    (stepO sc env s).isSome = true ∧
    (stepO sc env s).map (fun t => t.visited) = some s.visited ∧
    (stepO sc env s).map (fun t => t.queued) = some s.queued ∧
    (stepO sc env s).map (fun t => t.documents) = some s.documents ∧
    (stepO sc env s).map (fun t => t.warnings) = some (s.warnings + 1) ∧
    (stepO sc env s).map (fun t => t.pending) = some rest := by
  rw [stepO_fail hpend hb hv hf]
  exact ⟨rfl, rfl, rfl, rfl, rfl, rfl⟩

/-- **C5, witness** at a concrete input: the failing-fetch environment on
the seeded state. -/
theorem c5_fetch_failure_continues_witness :
    (stepO scGuide envFail (initState scGuide)).isSome = true ∧
    (stepO scGuide envFail (initState scGuide)).map (fun t => t.visited) =
      some (initState scGuide).visited ∧
    (stepO scGuide envFail (initState scGuide)).map (fun t => t.queued) =
      some (initState scGuide).queued ∧
    (stepO scGuide envFail (initState scGuide)).map (fun t => t.documents) =
      some (initState scGuide).documents ∧
    (stepO scGuide envFail (initState scGuide)).map (fun t => t.warnings) =
      some ((initState scGuide).warnings + 1) ∧
    (stepO scGuide envFail (initState scGuide)).map (fun t => t.pending) = some [] :=
  c5_fetch_failure_continues scGuide envFail (initState scGuide)
    "https://docs.example.com/guide" [] rfl (by decide) (by decide) rfl

/-- Progress measure of one iteration: a successful fetch grows the
visited count by one (under the budget guard), any other iteration leaves
`visited` unchanged and strictly shortens the frontier. -/
theorem stepO_progress {sc : Scraper} {env : Env} {s s' : ScrapeState}
    (h : stepO sc env s = some s') :
    (s'.visited.card = s.visited.card + 1 ∧ s.visited.card < sc.max_pages) ∨
    (s'.visited.card = s.visited.card ∧ s'.pending.length < s.pending.length) := by
  rcases hpend : s.pending with _ | ⟨url, rest⟩
  · rw [stepO_empty hpend] at h
    cases h
  · by_cases hb : s.visited.card < sc.max_pages
    · by_cases hv : url ∈ s.visited
      · rw [stepO_skip hpend hb hv] at h
        injection h with h
        subst h
        exact Or.inr ⟨rfl, Nat.lt_succ_self _⟩
      · rcases hf : env.fetch url with _ | ⟨ct, body⟩
        · rw [stepO_fail hpend hb hv hf] at h
          injection h with h
          subst h
          exact Or.inr ⟨rfl, Nat.lt_succ_self _⟩
        · have hcard : (insert url s.visited).card = s.visited.card + 1 :=
            Finset.card_insert_of_not_mem hv
          by_cases hpdf : isPdfResource url ct = true
          · rw [stepO_pdf hpend hb hv hf hpdf] at h
            injection h with h
            subst h
            exact Or.inl ⟨hcard, hb⟩
          · have hpdf' : isPdfResource url ct = false := by
              simpa using hpdf
            rcases hec : extract_content env body.asHtml url with _ | ⟨doc, soup2⟩
            · rw [stepO_html_err hpend hb hv hf hpdf' hec] at h
              injection h with h
              subst h
              exact Or.inl ⟨hcard, hb⟩
            · rw [stepO_html_ok hpend hb hv hf hpdf' hec] at h
              injection h with h
              subst h
              exact Or.inl ⟨hcard, hb⟩
    · rw [stepO_budget hpend hb] at h
      cases h

/-- From any state, the crawl loop reaches a state where its guard fails:
lexicographic descent on (remaining budget, frontier length). -/
theorem crawl_reaches_done (sc : Scraper) (env : Env) :
    ∀ s : ScrapeState, ∃ n, stepO sc env (runCrawl sc env n s) = none := by
  suffices h : ∀ (k m : Nat) (s : ScrapeState),
      sc.max_pages - s.visited.card ≤ k → s.pending.length ≤ m →
      ∃ n, stepO sc env (runCrawl sc env n s) = none by
    intro s
    exact h _ _ s le_rfl le_rfl
  intro k
  induction k with
  | zero =>
    intro m s hk _
    refine ⟨0, ?_⟩
    have hbud : ¬ s.visited.card < sc.max_pages := by omega
    rcases hpend : s.pending with _ | ⟨url, rest⟩
    · exact stepO_empty hpend
    · exact stepO_budget hpend hbud
  | succ k ihk =>
    intro m
    induction m with
    | zero =>
      intro s _ hm
      refine ⟨0, ?_⟩
      have hpend : s.pending = [] := by
        cases hp : s.pending with
        | nil => rfl
        | cons a l =>
          rw [hp] at hm
          simp at hm
      exact stepO_empty hpend
    | succ m ihm =>
      intro s hk hm
      rcases hst : stepO sc env s with _ | s2
      · exact ⟨0, hst⟩
      · have hrun : ∀ n, runCrawl sc env (n + 1) s = runCrawl sc env n s2 := by
          intro n
          simp [runCrawl, hst]
        rcases stepO_progress hst with ⟨hv2, hb⟩ | ⟨hv2, hp2⟩
        · have hk2 : sc.max_pages - s2.visited.card ≤ k := by omega
          obtain ⟨n, hn⟩ := ihk s2.pending.length s2 hk2 le_rfl
          exact ⟨n + 1, by rw [hrun n]; exact hn⟩
        · have hk2 : sc.max_pages - s2.visited.card ≤ k + 1 := by omega
          have hm2 : s2.pending.length ≤ m := by omega
          obtain ⟨n, hn⟩ := ihm s2 hk2 hm2
          exact ⟨n + 1, by rw [hrun n]; exact hn⟩

/-- **C9**: the crawl loop always terminates — in particular on every
finite, scope-closed link graph, and even when `max_pages` exceeds the
number of reachable pages (empty-frontier termination): after finitely
many iterations the loop guard fails, because `pending` only receives
URLs never queued before and at most `max_pages` successful fetches can
occur. -/
theorem c9_crawl_terminates (sc : Scraper) (env : Env) :
    ∃ n, stepO sc env (runCrawl sc env n (initState sc)) = none :=
  crawl_reaches_done sc env (initState sc)

/-- An HTML document with no `main`, no `article`, no content-class `div`
and no `body` (BeautifulSoup's `html.parser` does not synthesize missing
`body` tags). -/
def noBodyDoc : Html := .elem "p" [] none [.text "x"]

/-- **C6, counterexample**: on a document with none of the four fallback
targets — in particular no `<body>` — the source's `main_content` is
`None` and `main_content.find_all(...)` raises `AttributeError` past the
extractor boundary (modelled by `extract_content` returning `none`; the
exception is only caught later by `scrape`'s blanket `except`).  The claim
that the HTML extractor falls back to `<body>` and "returns a record
without raising" for *every* such document is therefore false. -/
theorem c6_counterexample :
    findFirst isMainTag noBodyDoc = none ∧
    findFirst isArticleTag noBodyDoc = none ∧
    findFirst isContentDiv noBodyDoc = none ∧
    findFirst isBodyTag noBodyDoc = none ∧
    extract_content envFail noBodyDoc "http://h/p" = none :=
  ⟨rfl, rfl, rfl, rfl, rfl⟩

/-- **C6, amended**: for every HTML document containing none of a `main`
element, an `article` element, or a content-class `div`, but containing a
`body` element, the HTML extractor selects the `body` fallback and
returns a record without raising (documents with no `body` at all instead
raise an `AttributeError`, which the crawl loop catches); and for every
malformed PDF input the PDF extractor returns, without raising, a record
with empty content and title equal to the last path segment of the
URL. -/
theorem c6_extractors_no_raise (env : Env) (doc : Html) (url pdfUrl : String)
    (hm : findFirst isMainTag doc = none)
    (ha : findFirst isArticleTag doc = none)
    (hd : findFirst isContentDiv doc = none)
    (hb : (findFirst isBodyTag doc).isSome = true) :
    selectPred doc = some isBodyTag ∧
    (extract_content env doc url).isSome = true ∧
    extract_pdf_content none pdfUrl =
      { url := pdfUrl, title := lastPathSegment pdfUrl, content := "" } := by
  rcases hfb : findFirst isBodyTag doc with _ | r
  · rw [hfb] at hb
    cases hb
  · have hsel : selectPred doc = some isBodyTag := by
      unfold selectPred
      rw [hm, ha, hd, hfb]
      simp
    refine ⟨hsel, ?_, rfl⟩
    simp [extract_content, hsel, hfb]

/-- An HTML document whose only fallback target is its `body`. -/
def bodyOnlyDoc : Html :=
  .elem "html" [] none [.elem "body" [] none [.text "hi"]]

/-- **C6, witness** for the amended statement at a concrete input. -/
theorem c6_extractors_no_raise_witness :
    findFirst isMainTag bodyOnlyDoc = none ∧
    findFirst isArticleTag bodyOnlyDoc = none ∧
    findFirst isContentDiv bodyOnlyDoc = none ∧
    (findFirst isBodyTag bodyOnlyDoc).isSome = true ∧
    (selectPred bodyOnlyDoc = some isBodyTag ∧
     (extract_content envFail bodyOnlyDoc "http://h/x").isSome = true ∧
     extract_pdf_content none "http://h/a/b.pdf" =
       { url := "http://h/a/b.pdf", title := lastPathSegment "http://h/a/b.pdf",
         content := "" }) :=
  ⟨rfl, rfl, rfl, rfl,
   c6_extractors_no_raise envFail bodyOnlyDoc "http://h/x" "http://h/a/b.pdf" rfl rfl rfl rfl⟩

mutual

/-- The anchors surviving the decompose pass are exactly the anchors not
inside any strip-tagged element. -/
theorem anchorHrefs_clean : ∀ t : Html, anchorHrefs (cleanTree t) = anchorsOutside t
  | .elem tg c h ch => by
    simp [cleanTree, anchorHrefs, anchorsOutside, anchorHrefsList_clean ch]
  | .text _ => rfl
termination_by structural t => t

/-- `anchorHrefs_clean` over a sibling list. -/
theorem anchorHrefsList_clean :
    ∀ l : List Html, anchorHrefsList (cleanList l) = anchorsOutsideList l
  | [] => rfl
  | h :: rest => by
    by_cases hs : nodeStripped h
    · simp [cleanList, anchorsOutsideList, hs, anchorHrefsList_clean rest]
    · simp [cleanList, anchorsOutsideList, anchorHrefsList, hs,
        anchorHrefs_clean h, anchorHrefsList_clean rest]
termination_by structural l => l

end

mutual

/-- Replacing the first `p`-subtree `r` by `f r` rewrites the document's
anchor sequence inside the `r`-segment only: the anchors split as
`pre ++ anchors r ++ suf` before and `pre ++ anchors (f r) ++ suf`
after. -/
theorem replaceFirst_anchors (p : Html → Bool) (f : Html → Html) :
    ∀ (t r : Html), findFirst p t = some r →
      ∃ pre suf, anchorHrefs t = pre ++ anchorHrefs r ++ suf ∧
        anchorHrefs (replaceFirst p f t) = pre ++ anchorHrefs (f r) ++ suf
  | .elem tg c h ch, r, hfind => by
    by_cases hp : p (.elem tg c h ch)
    · have hr : r = .elem tg c h ch := by
        unfold findFirst at hfind
        rw [if_pos hp] at hfind
        exact (Option.some.inj hfind).symm
      subst hr
      refine ⟨[], [], by simp, ?_⟩
      simp [replaceFirst, hp]
    · unfold findFirst at hfind
      rw [if_neg hp] at hfind
      obtain ⟨pre, suf, h1, h2⟩ := replaceFirstList_anchors p f ch r hfind
      refine ⟨(if tg == "a" then h.toList else []) ++ pre, suf, ?_, ?_⟩
      · simp [anchorHrefs, h1, List.append_assoc]
      · simp [replaceFirst, hp, anchorHrefs, h2, List.append_assoc]
  | .text s, r, hfind => by
    by_cases hp : p (.text s)
    · have hr : r = .text s := by
        unfold findFirst at hfind
        rw [if_pos hp] at hfind
        exact (Option.some.inj hfind).symm
      subst hr
      refine ⟨[], [], by simp [anchorHrefs], ?_⟩
      simp [replaceFirst, hp, anchorHrefs]
    · unfold findFirst at hfind
      rw [if_neg hp] at hfind
      cases hfind
termination_by structural t => t

/-- `replaceFirst_anchors` over a sibling list. -/
theorem replaceFirstList_anchors (p : Html → Bool) (f : Html → Html) :
    ∀ (l : List Html) (r : Html), findFirstList p l = some r →
      ∃ pre suf, anchorHrefsList l = pre ++ anchorHrefs r ++ suf ∧
        anchorHrefsList (replaceFirstList p f l) = pre ++ anchorHrefs (f r) ++ suf
  | [], r, hfind => by
    simp [findFirstList] at hfind
  | h :: rest, r, hfind => by
    rcases hfh : findFirst p h with _ | r0
    · have hfind' : findFirstList p rest = some r := by
        unfold findFirstList at hfind
        rw [hfh] at hfind
        exact hfind
      obtain ⟨pre, suf, h1, h2⟩ := replaceFirstList_anchors p f rest r hfind'
      have hrep : replaceFirstList p f (h :: rest) = h :: replaceFirstList p f rest := by
        conv_lhs => rw [replaceFirstList]
        rw [hfh]
        simp
      refine ⟨anchorHrefs h ++ pre, suf, ?_, ?_⟩
      · simp [anchorHrefsList, h1, List.append_assoc]
      · rw [hrep]
        simp [anchorHrefsList, h2, List.append_assoc]
    · have hr : r0 = r := by
        unfold findFirstList at hfind
        rw [hfh] at hfind
        exact Option.some.inj hfind
      subst hr
      obtain ⟨pre, suf, h1, h2⟩ := replaceFirst_anchors p f h r0 hfh
      have hrep : replaceFirstList p f (h :: rest) = replaceFirst p f h :: rest := by
        unfold replaceFirstList
        rw [hfh]
        simp
      refine ⟨pre, suf ++ anchorHrefsList rest, ?_, ?_⟩
      · simp [anchorHrefsList, h1, List.append_assoc]
      · rw [hrep]
        simp [anchorHrefsList, h2, List.append_assoc]
termination_by structural l => l

end

/-- **C10**: `extract_content` mutates the shared parsed document in
place — it removes the script/style/nav/header/footer elements of the
selected main-content region, so when link extraction later walks the
same document, the anchors of the region that sat inside those removed
elements are gone (only `anchorsOutside` the strip elements remain),
while all anchors before and after the region (`pre`, `suf`) — in
particular those in nav/header/footer elements outside the selected
region — are preserved. -/
theorem c10_mutation_hides_region_links (env : Env) (doc : Html) (url : String)
    (p : Html → Bool) (r : Html) (rec : DocRecord) (soup2 : Html)
    (hsel : selectPred doc = some p)
    (hfind : findFirst p doc = some r)
    (hec : extract_content env doc url = some (rec, soup2)) :
    ∃ pre suf,
      anchorHrefs doc = pre ++ anchorHrefs r ++ suf ∧
      anchorHrefs soup2 = pre ++ anchorsOutside r ++ suf := by
  have hs2 : soup2 = replaceFirst p cleanTree doc := by
    simp only [extract_content, hsel, hfind, Option.some.injEq, Prod.mk.injEq] at hec
    exact hec.2.symm
  obtain ⟨pre, suf, h1, h2⟩ := replaceFirst_anchors p cleanTree doc r hfind
  exact ⟨pre, suf, h1, by rw [hs2, h2, anchorHrefs_clean r]⟩

/-- The main-content region of the C10 witness document: a `main` element
whose `nav` child contains one link, next to a link and text kept
outside any strip element. -/
def frameMain : Html :=
  .elem "main" [] none [
    .elem "nav" [] none [.elem "a" [] (some "https://docs.example.com/guide/hidden") []],
    .elem "a" [] (some "https://docs.example.com/guide/kept") [],
    .text "hi"]

/-- The C10 witness document: a `nav` with a link *outside* the `main`
region, followed by the region itself. -/
def frameDoc : Html :=
  .elem "html" [] none [.elem "body" [] none [
    .elem "nav" [] none [.elem "a" [] (some "https://docs.example.com/guide/outside") []],
    frameMain]]

/-- The record and mutated document produced by the HTML extractor on the
C10 witness document. -/
def frameResult : DocRecord × Html :=
  (extract_content envFail frameDoc "https://docs.example.com/guide").getD
    ({ url := "", title := "", content := "" }, .text "")

/-- **C10, witness** at a concrete input: the `main` region is found and
the mutated document's anchors lose exactly the region's nav-hidden
link. -/
theorem c10_mutation_hides_region_links_witness :
    (∃ pre suf,
      anchorHrefs frameDoc = pre ++ anchorHrefs frameMain ++ suf ∧
      anchorHrefs frameResult.2 = pre ++ anchorsOutside frameMain ++ suf) ∧
    anchorHrefs frameDoc =
      ["https://docs.example.com/guide/outside", "https://docs.example.com/guide/hidden",
       "https://docs.example.com/guide/kept"] ∧
    anchorHrefs frameResult.2 =
      ["https://docs.example.com/guide/outside", "https://docs.example.com/guide/kept"] :=
  ⟨c10_mutation_hides_region_links envFail frameDoc "https://docs.example.com/guide"
      isMainTag frameMain frameResult.1 frameResult.2 rfl rfl rfl,
   rfl, rfl⟩
